import Mathlib

/-!
Verification of the dent-slot-checker scraping-and-analysis engine.

The Python sources are translated into a shallow Lean embedding:

* `src/slot_analyzer.py`  — pure analysis functions (`detect_slot_interval`,
  `count_consecutive_blocks`, `count_30min_blocks`, `analyze_doctor_slots`,
  `check_clinic_availability`).  Python `//` raises `ZeroDivisionError` on a
  zero divisor, so divisions are modelled through `pydiv : Int → Int → Option
  Int`; a function that can raise is `Option`-valued, `none` marking the
  exception.  Python `//` on negative operands is floor division, i.e.
  `Int.fdiv`.
* `src/main.py`           — `analyze_results` (result aggregator) and the
  `check_date` computations.
* `src/scraper.py`        — `build_row_time_mapping` (row-index → minute map).
* `src/scraper_stransa.py`— the SPA empty-cell predicate.
* `web/routes/results.py` — `apply_web_booking_filter`, the `/check` route's
  response model, and the backend scheduling order of `_scrape_all`.
* `web/task_manager.py`   — `TaskManager` state and its mutators.

Dictionaries are modelled as association lists in insertion order, Python
sets as lists with membership tests, and wall-clock instants as integer
minutes.
-/

/-- Python `sorted` on a list of ints (stable, ascending). -/
def pysorted (l : List Int) : List Int := l.insertionSort (· ≤ ·)

/-- Python integer floor division `a // b`; `none` models `ZeroDivisionError`. -/
def pydiv (a b : Int) : Option Int := if b = 0 then none else some (Int.fdiv a b)

/-- The list comprehension in `detect_slot_interval`
(`src/slot_analyzer.py:12`): consecutive differences of the sorted list,
keeping only strictly positive steps. -/
def gapsOf : List Int → List Int
  | [] => []
  | [_] => []
  | a :: b :: rest => if a < b then (b - a) :: gapsOf (b :: rest) else gapsOf (b :: rest)

/-- `Counter(gaps).most_common(1)[0][0]`: the element of maximal multiplicity,
ties resolved in favour of the first encountered (CPython `Counter` order). -/
def mostCommonGap (l : List Int) : Option Int :=
  l.foldl
    (fun best x =>
      match best with
      | none => some x
      | some b => if l.count b < l.count x then some x else some b)
    none

/-- `min((5,10,15,20,30), key=lambda x: abs(x - detected))`: first minimum in
tuple order. -/
def snapTo (detected : Int) : Int :=
  [(10 : Int), 15, 20, 30].foldl
    (fun best x => if |x - detected| < |best - detected| then x else best) 5

/-- `detect_slot_interval` (`src/slot_analyzer.py:7-18`). -/
def detect_slot_interval (slot_times : List Int) (default : Int) : Int :=
  if slot_times.length < 2 then default
  else
    match mostCommonGap (gapsOf (pysorted slot_times)) with
    | none => default
    | some detected =>
        if detected = 5 ∨ detected = 10 ∨ detected = 15 ∨ detected = 20 ∨ detected = 30 then
          detected
        else snapTo detected

/-- Loop body of `count_consecutive_blocks` (`src/slot_analyzer.py:50-62`),
walking the tail of the sorted list.  State: run start, run length, previous
time, collected ranges. -/
def ccbGo (required_consecutive interval : Int) :
    List Int → Int → Int → Int → List (Int × Int) → List (Int × Int)
  | [], current_start, current_count, prev_time, blocks =>
      if required_consecutive ≤ current_count then blocks ++ [(current_start, prev_time)]
      else blocks
  | t :: rest, current_start, current_count, prev_time, blocks =>
      if t = prev_time + interval then
        ccbGo required_consecutive interval rest current_start (current_count + 1) t blocks
      else
        ccbGo required_consecutive interval rest t 1 t
          (if required_consecutive ≤ current_count then blocks ++ [(current_start, prev_time)]
           else blocks)

/-- `count_consecutive_blocks` (`src/slot_analyzer.py:21-64`). -/
def count_consecutive_blocks (slot_times : List Int) (required_consecutive interval : Int) :
    Int × List (Int × Int) :=
  match pysorted slot_times with
  | [] => (0, [])
  | t :: rest =>
      let blocks := ccbGo required_consecutive interval rest t 1 t []
      ((blocks.length : Int), blocks)

/-- `minutes_to_time_str` (`src/slot_analyzer.py:67-71`), `f"{h}:{m:02d}"`. -/
def minutes_to_time_str (minutes : Int) : String :=
  let hours := Int.fdiv minutes 60
  let mins := Int.fmod minutes 60
  toString hours ++ ":" ++ (if mins < 10 then "0" ++ toString mins else toString mins)

/-- `format_time_range` (`src/slot_analyzer.py:74-78`). -/
def format_time_range (start_minutes end_minutes slot_interval : Int) : String :=
  minutes_to_time_str start_minutes ++ "-" ++ minutes_to_time_str (end_minutes + slot_interval)

/-- Loop body of `count_30min_blocks` (`src/slot_analyzer.py:176-186`).
Each flush performs `current_count // consecutive_required`, which raises
(`none`) on a zero `consecutive_required`. -/
def c30Go (consecutive_required slot_interval : Int) :
    List Int → Int → Int → Int → Option Int
  | [], current_count, _prev_time, total_blocks =>
      (pydiv current_count consecutive_required).map (fun q => total_blocks + q)
  | t :: rest, current_count, prev_time, total_blocks =>
      if t = prev_time + slot_interval then
        c30Go consecutive_required slot_interval rest (current_count + 1) t total_blocks
      else
        match pydiv current_count consecutive_required with
        | none => none
        | some q => c30Go consecutive_required slot_interval rest 1 t (total_blocks + q)

/-- `count_30min_blocks` (`src/slot_analyzer.py:147-188`). -/
def count_30min_blocks (slot_times : List Int) (slot_interval consecutive_required : Int) :
    Option Int :=
  match pysorted slot_times with
  | [] => some 0
  | t :: rest => c30Go consecutive_required slot_interval rest 1 t 0

/-- The dictionary returned by `analyze_doctor_slots`
(`src/slot_analyzer.py:119-126`); also the shape of a `details` entry of the
run artifact. -/
structure StaffAnalysis where
  doctor : String
  blocks : Int
  times : List String
  threshold_minutes : Int
  raw_slot_times : List Int
  slot_interval : Int
deriving DecidableEq, Repr

/-- `analyze_doctor_slots` (`src/slot_analyzer.py:81-126`).  `none` models an
uncaught `ZeroDivisionError` (zero detected interval, or zero derived
consecutive requirement flushed against a nonempty slot list). -/
def analyze_doctor_slots (doctor_name : String) (slot_times : List Int)
    (_required_consecutive interval threshold_minutes : Int) : Option StaffAnalysis :=
  let actual_interval := detect_slot_interval slot_times interval
  match pydiv threshold_minutes actual_interval with
  | none => none
  | some actual_consecutive =>
      let ranges := (count_consecutive_blocks slot_times actual_consecutive actual_interval).2
      let time_strs := ranges.map (fun p => format_time_range p.1 p.2 actual_interval)
      match count_30min_blocks slot_times actual_interval actual_consecutive with
      | none => none
      | some actual_blocks =>
          some { doctor := doctor_name, blocks := actual_blocks, times := time_strs,
                 threshold_minutes := threshold_minutes,
                 raw_slot_times := pysorted slot_times, slot_interval := actual_interval }

/-- `check_clinic_availability` (`src/slot_analyzer.py:129-144`). -/
def check_clinic_availability (doctor_results : List StaffAnalysis) (minimum_blocks : Int) :
    Bool × Int :=
  let total_blocks := (doctor_results.map (·.blocks)).sum
  (decide (minimum_blocks ≤ total_blocks), total_blocks)


/-! ### Maximal-run decomposition (specification side, for C1)

`splitRuns i l` cuts a list into its maximal segments in which every element
is exactly `i` more than its predecessor — the spec's "maximal run of
consecutive times".  `runLens i l` is the list of their lengths.  The lemmas
`splitRuns_flatten`, `splitRuns_chain` and `splitRuns_maximal` certify that
this is indeed the maximal-run decomposition. -/

/-- Accumulating worker for `splitRuns`: `cur` holds the current run in
reverse, its head being the last element processed. -/
def runGo (i : Int) : List Int → Int → List Int → List (List Int)
  | [], _prev, cur => [cur.reverse]
  | t :: rest, prev, cur =>
      if t = prev + i then runGo i rest t (t :: cur)
      else cur.reverse :: runGo i rest t [t]

/-- Maximal runs of step `i`. -/
def splitRuns (i : Int) : List Int → List (List Int)
  | [] => []
  | t :: rest => runGo i rest t [t]

/-- Worker computing only the run lengths. -/
def runLensGo (i : Int) : List Int → Int → Nat → List Nat
  | [], _prev, cnt => [cnt]
  | t :: rest, prev, cnt =>
      if t = prev + i then runLensGo i rest t (cnt + 1)
      else cnt :: runLensGo i rest t 1

/-- Lengths of the maximal runs of step `i`. -/
def runLens (i : Int) : List Int → List Nat
  | [] => []
  | t :: rest => runLensGo i rest t 1

/-- The arithmetic progression `t, t+i, …, t+(n-1)·i` — a single run. -/
def arithRun (t i : Int) : Nat → List Int
  | 0 => []
  | n + 1 => t :: arithRun (t + i) i n

/-- Two adjacent elements of a run differ by exactly `i`. -/
def StepRel (i : Int) (a b : Int) : Prop := b = a + i

/-- Adjacent maximal runs must not chain together. -/
def RunBreak (i : Int) (r₁ r₂ : List Int) : Prop :=
  ∀ a ∈ r₁.getLast?, ∀ b ∈ r₂.head?, b ≠ a + i

theorem runGo_map_length (i : Int) (l : List Int) :
    ∀ (prev : Int) (cur : List Int),
      (runGo i l prev cur).map List.length = runLensGo i l prev cur.length := by
  induction l with
  | nil => intro prev cur; simp [runGo, runLensGo]
  | cons t rest ih =>
      intro prev cur
      by_cases h : t = prev + i
      · simp only [runGo, runLensGo, if_pos h]
        simpa using ih t (t :: cur)
      · simp only [runGo, runLensGo, if_neg h, List.map_cons]
        simpa using ih t [t]

theorem splitRuns_map_length (i : Int) (l : List Int) :
    (splitRuns i l).map List.length = runLens i l := by
  cases l with
  | nil => rfl
  | cons t rest => simpa using runGo_map_length i rest t [t]

theorem runGo_flatten (i : Int) (l : List Int) :
    ∀ (prev : Int) (cur : List Int),
      (runGo i l prev cur).flatten = cur.reverse ++ l := by
  induction l with
  | nil => intro prev cur; simp [runGo]
  | cons t rest ih =>
      intro prev cur
      by_cases h : t = prev + i
      · simp only [runGo, if_pos h]
        rw [ih t (t :: cur)]
        simp
      · simp only [runGo, if_neg h, List.flatten_cons]
        rw [ih t [t]]
        simp

/-- The maximal runs concatenate back to the original list. -/
theorem splitRuns_flatten (i : Int) (l : List Int) : (splitRuns i l).flatten = l := by
  cases l with
  | nil => rfl
  | cons t rest => simpa using runGo_flatten i rest t [t]

theorem runGo_chain (i : Int) (l : List Int) :
    ∀ (prev : Int) (cur : List Int), cur.head? = some prev →
      cur.reverse.Chain' (StepRel i) →
      ∀ run ∈ runGo i l prev cur, run.Chain' (StepRel i) := by
  induction l with
  | nil =>
      intro prev cur _ hchain run hrun
      simp only [runGo, List.mem_singleton] at hrun
      exact hrun ▸ hchain
  | cons t rest ih =>
      intro prev cur hhead hchain run hrun
      by_cases h : t = prev + i
      · simp only [runGo, if_pos h] at hrun
        refine ih t (t :: cur) rfl ?_ run hrun
        simp only [List.reverse_cons]
        rw [List.chain'_append]
        refine ⟨hchain, List.chain'_singleton t, ?_⟩
        intro x hx y hy
        rw [List.getLast?_reverse, hhead] at hx
        simp only [List.head?_cons, Option.mem_def, Option.some.injEq] at hx hy
        subst hx
        subst hy
        exact h
      · simp only [runGo, if_neg h, List.mem_cons] at hrun
        rcases hrun with rfl | hrun
        · exact hchain
        · exact ih t [t] rfl (List.chain'_singleton t) run hrun

/-- Each produced run is a chain of step exactly `i`. -/
theorem splitRuns_chain (i : Int) (l : List Int) :
    ∀ run ∈ splitRuns i l, run.Chain' (StepRel i) := by
  cases l with
  | nil => intro run hrun; simp [splitRuns] at hrun
  | cons t rest =>
      intro run hrun
      exact runGo_chain i rest t [t] rfl (List.chain'_singleton t) run hrun

theorem runGo_first_head (i : Int) (l : List Int) :
    ∀ (prev : Int) (cur : List Int), cur ≠ [] →
      ((runGo i l prev cur).head?.bind List.head?) = cur.getLast? := by
  induction l with
  | nil =>
      intro prev cur _
      simp [runGo, List.head?_reverse]
  | cons t rest ih =>
      intro prev cur hne
      by_cases h : t = prev + i
      · simp only [runGo, if_pos h]
        rw [ih t (t :: cur) (by simp)]
        obtain ⟨c, cs, rfl⟩ := List.exists_cons_of_ne_nil hne
        simp [List.getLast?_cons_cons]
      · simp only [runGo, if_neg h, List.head?_cons]
        simp [List.head?_reverse]

theorem runGo_maximal (i : Int) (l : List Int) :
    ∀ (prev : Int) (cur : List Int), cur.head? = some prev →
      (runGo i l prev cur).Chain' (RunBreak i) := by
  induction l with
  | nil => intro prev cur _; exact List.chain'_singleton _
  | cons t rest ih =>
      intro prev cur hhead
      by_cases h : t = prev + i
      · simp only [runGo, if_pos h]
        exact ih t (t :: cur) rfl
      · simp only [runGo, if_neg h]
        rw [List.chain'_cons']
        refine ⟨?_, ih t [t] rfl⟩
        intro y hy a ha b hb
        have hfh := runGo_first_head i rest t [t] (by simp)
        rw [Option.mem_def] at hy
        rw [hy] at hfh
        simp only [Option.bind, List.getLast?_singleton] at hfh
        rw [List.getLast?_reverse, hhead] at ha
        simp only [Option.mem_def, Option.some.injEq] at ha
        rw [hfh] at hb
        simp only [Option.mem_def, Option.some.injEq] at hb
        subst ha
        subst hb
        exact h

/-- Adjacent maximal runs do not chain: the decomposition is maximal. -/
theorem splitRuns_maximal (i : Int) (l : List Int) :
    (splitRuns i l).Chain' (RunBreak i) := by
  cases l with
  | nil => exact List.chain'_nil
  | cons t rest => exact runGo_maximal i rest t [t] rfl
/-! ### C1: `count_30min_blocks` sums `⌊run_length / required⌋` over maximal runs -/

/-- `⌊n / r⌋` summed over a list of run lengths. -/
def runBlockSum (r : Int) (lens : List Nat) : Int :=
  (lens.map (fun (n : Nat) => Int.fdiv (n : Int) r)).sum

theorem runBlockSum_cons (r : Int) (n : Nat) (lens : List Nat) :
    runBlockSum r (n :: lens) = Int.fdiv (n : Int) r + runBlockSum r lens := by
  simp [runBlockSum]

theorem c30Go_eq_runLensGo (r i : Int) (hr : r ≠ 0) (l : List Int) :
    ∀ (prev acc : Int) (cnt : Nat),
      c30Go r i l (cnt : Int) prev acc
        = some (acc + runBlockSum r (runLensGo i l prev cnt)) := by
  induction l with
  | nil =>
      intro prev acc cnt
      simp [c30Go, runLensGo, pydiv, hr, runBlockSum]
  | cons t rest ih =>
      intro prev acc cnt
      by_cases h : t = prev + i
      · simp only [c30Go, runLensGo, if_pos h]
        have hcast : ((cnt : Int) + 1) = ((cnt + 1 : Nat) : Int) := by push_cast; ring
        rw [hcast]
        exact ih t acc (cnt + 1)
      · simp only [c30Go, runLensGo, if_neg h, pydiv, if_neg hr]
        have hone : (1 : Int) = ((1 : Nat) : Int) := by norm_num
        rw [hone, ih t (acc + Int.fdiv (cnt : Int) r) 1, runBlockSum_cons]
        rw [add_assoc]

theorem count_30min_blocks_eq_runLens (l : List Int) (i r : Int) (hr : r ≠ 0) :
    count_30min_blocks l i r = some (runBlockSum r (runLens i (pysorted l))) := by
  unfold count_30min_blocks runLens
  rcases hs : pysorted l with _ | ⟨t, rest⟩
  · simp [runBlockSum]
  · show c30Go r i rest (1 : Int) t 0 = some (runBlockSum r (runLensGo i rest t 1))
    simpa using c30Go_eq_runLensGo r i hr rest t 0 1

theorem arithRun_sorted (t i : Int) (hi : 0 < i) :
    ∀ n : Nat, List.Sorted (· ≤ ·) (arithRun t i n) := by
  intro n
  induction n generalizing t with
  | zero => exact List.sorted_nil
  | succ n ih =>
      simp only [arithRun]
      rw [List.sorted_cons]
      refine ⟨?_, ih (t + i)⟩
      intro b hb
      have hmem : ∀ (k : Nat) (s : Int), b ∈ arithRun s i k → s ≤ b := by
        intro k
        induction k with
        | zero => intro s hs; simp [arithRun] at hs
        | succ k ihk =>
            intro s hs
            simp only [arithRun, List.mem_cons] at hs
            rcases hs with rfl | hs
            · exact le_refl b
            · exact le_trans (by linarith) (ihk (s + i) hs)
      have := hmem n (t + i) hb
      linarith

theorem pysorted_arithRun (t i : Int) (hi : 0 < i) (n : Nat) :
    pysorted (arithRun t i n) = arithRun t i n :=
  List.Sorted.insertionSort_eq (arithRun_sorted t i hi n)

theorem runLensGo_arithRun (i : Int) (n : Nat) :
    ∀ (prev : Int) (cnt : Nat), runLensGo i (arithRun (prev + i) i n) prev cnt = [cnt + n] := by
  induction n with
  | zero => intro prev cnt; simp [arithRun, runLensGo]
  | succ n ih =>
      intro prev cnt
      simp only [arithRun, runLensGo, if_pos rfl]
      rw [ih (prev + i) (cnt + 1), Nat.add_assoc, Nat.add_comm 1 n]
      simp

/-- C1.  For a positive interval `i` and required run `r ≥ 1`,
`count_30min_blocks` never raises and returns the sum over each maximal run
of step `i` (in the sorted input) of `⌊run_length / r⌋`; in particular a
single arithmetic run of length `n` yields `⌊n / r⌋`, so the count over a
list composed of disjoint maximal runs is the sum of the per-run values.
`splitRuns_flatten`, `splitRuns_chain` and `splitRuns_maximal` certify that
`splitRuns` is the spec's maximal-run decomposition. -/
theorem count_30min_blocks_sums_maximal_runs (l : List Int) (t i r : Int) (n : Nat)
    (hi : 0 < i) (hr : 1 ≤ r) :
    count_30min_blocks l i r
        = some (((splitRuns i (pysorted l)).map (fun c => Int.fdiv (c.length : Int) r)).sum)
    ∧ count_30min_blocks (arithRun t i n) i r = some (Int.fdiv (n : Int) r) := by
  have hr' : r ≠ 0 := by omega
  constructor
  · rw [count_30min_blocks_eq_runLens l i r hr', ← splitRuns_map_length]
    unfold runBlockSum
    rw [List.map_map]
    rfl
  · rw [count_30min_blocks_eq_runLens _ i r hr', pysorted_arithRun t i hi n]
    cases n with
    | zero => simp [arithRun, runLens, runBlockSum]
    | succ m =>
        simp only [arithRun, runLens]
        rw [runLensGo_arithRun i m t 1, runBlockSum_cons]
        simp only [runBlockSum, List.map_nil, List.sum_nil, add_zero]
        rw [Nat.add_comm 1 m]

/-- Witness for C1 at `l = [565,570,575,580,585,590,600,605]`, `i = 5`,
`r = 6`, single run `t = 540`, `n = 13`. -/
theorem count_30min_blocks_sums_maximal_runs_witness :
    count_30min_blocks [565, 570, 575, 580, 585, 590, 600, 605] 5 6
        = some (((splitRuns 5 (pysorted [565, 570, 575, 580, 585, 590, 600, 605])).map
            (fun c => Int.fdiv (c.length : Int) 6)).sum)
    ∧ count_30min_blocks (arithRun 540 5 13) 5 6 = some (Int.fdiv (13 : Int) 6) :=
  count_30min_blocks_sums_maximal_runs [565, 570, 575, 580, 585, 590, 600, 605] 540 5 6 13
    (by decide) (by decide)

/-! ### C2: totality of the Slot Analyzer's numeric functions

The claim is false as stated: `analyze_doctor_slots` computes
`threshold_minutes // actual_interval` with no guard, a `ZeroDivisionError`
when the detected interval is `0`, and `count_30min_blocks` divides by the
derived consecutive requirement, a `ZeroDivisionError` when that quotient is
`0` against a nonempty slot list.  With those two divisors nonzero the
functions are total and empty inputs give zero counts and no ranges. -/

theorem count_30min_blocks_isSome (l : List Int) (i r : Int) (hr : r ≠ 0) :
    (count_30min_blocks l i r).isSome = true := by
  rw [count_30min_blocks_eq_runLens l i r hr]
  rfl

theorem count_30min_blocks_empty_sorted (l : List Int) (i r : Int) (h : pysorted l = []) :
    count_30min_blocks l i r = some 0 := by
  unfold count_30min_blocks
  rw [h]

/-- C2 counterexample: `analyze_doctor_slots` raises `ZeroDivisionError`
(modelled `none`) on an empty slot list with default interval `0`
(`30 // 0`), and on `[540]` with default interval `60` (the derived
requirement `30 // 60 = 0` is then the divisor in `count_30min_blocks`). -/
theorem analyze_doctor_slots_raises :
    analyze_doctor_slots "X" [] 6 0 30 = none
    ∧ analyze_doctor_slots "X" [540] 6 60 30 = none := by
  constructor <;> rfl

/-- C2 (amended).  The numeric analyzer functions return a value — no
exception — provided the detected interval is nonzero and, for a slot list
that is nonempty, the derived consecutive requirement
`threshold // interval` is nonzero; empty inputs yield zero counts and no
ranges. -/
theorem slot_analyzer_totality (name : String) (l : List Int) (rc d th i r : Int)
    (hd : detect_slot_interval l d ≠ 0)
    (hq : pysorted l = [] ∨ Int.fdiv th (detect_slot_interval l d) ≠ 0) :
    (analyze_doctor_slots name l rc d th).isSome = true
    ∧ detect_slot_interval [] d = d
    ∧ count_consecutive_blocks [] r i = (0, [])
    ∧ count_30min_blocks [] i r = some 0
    ∧ (∀ a, analyze_doctor_slots name [] rc d th = some a → a.blocks = 0 ∧ a.times = []) := by
  refine ⟨?_, rfl, rfl, rfl, ?_⟩
  · unfold analyze_doctor_slots
    simp only [pydiv, if_neg hd]
    rcases hq with hq | hq
    · rw [count_30min_blocks_empty_sorted l _ _ hq]
      rfl
    · have := count_30min_blocks_isSome l (detect_slot_interval l d)
        (Int.fdiv th (detect_slot_interval l d)) hq
      rcases hc : count_30min_blocks l (detect_slot_interval l d)
          (Int.fdiv th (detect_slot_interval l d)) with _ | b
      · rw [hc] at this
        exact absurd this (by simp)
      · rfl
  · intro a ha
    by_cases hd0 : d = 0
    · subst hd0
      exact absurd ha (by simp [analyze_doctor_slots, detect_slot_interval, pydiv])
    · unfold analyze_doctor_slots at ha
      simp only [detect_slot_interval, List.length_nil, if_pos (by norm_num : (0:Nat) < 2),
        pydiv, if_neg hd0] at ha
      rw [count_30min_blocks_empty_sorted [] d _ rfl] at ha
      simp only [count_consecutive_blocks, Option.some.injEq] at ha
      cases ha
      constructor <;> rfl

/-- Witness for C2 (amended) at `l = [540, 545]`, default interval `5`,
threshold `30`. -/
theorem slot_analyzer_totality_witness :
    detect_slot_interval [540, 545] 5 ≠ 0
    ∧ ((analyze_doctor_slots "X" [540, 545] 6 5 30).isSome = true
        ∧ detect_slot_interval [] 5 = 5
        ∧ count_consecutive_blocks [] 6 5 = (0, [])
        ∧ count_30min_blocks [] 5 6 = some 0
        ∧ (∀ a, analyze_doctor_slots "X" [] 6 5 30 = some a → a.blocks = 0 ∧ a.times = [])) :=
  ⟨by decide,
   slot_analyzer_totality "X" [540, 545] 6 5 30 5 6 (by decide) (Or.inr (by decide))⟩

/-! ### Clinic results and the web-booking filter (C3)

`apply_web_booking_filter` (`web/routes/results.py:48-96`) walks the parsed
artifact's `results`.  A clinic result is modelled by `ClinicResult`; the
clinic's `web_booking` allow-list by an association list
`staff_by_clinic : List (String × List String)` (only the `web_booking`
field of each per-clinic rule is relevant here); the `settings` dict by the
optional configured value of `minimum_blocks_required`
(`(settings or {}).get('minimum_blocks_required', 4)`). -/

/-- One entry of the artifact's `results` list (`src/main.py:121-127`). -/
structure ClinicResult where
  clinic : String
  system : String
  result : Bool
  total_30min_blocks : Int
  details : List StaffAnalysis
deriving DecidableEq, Repr

/-- The loop body of `apply_web_booking_filter` acting on one clinic result
(`web/routes/results.py:60-90`). -/
def filter_clinic_result (staff_by_clinic : List (String × List String)) (min_blocks : Int)
    (result : ClinicResult) : ClinicResult :=
  let web_booking := (staff_by_clinic.lookup result.clinic).getD []
  if web_booking = [] then
    { result with details := [], total_30min_blocks := 0, result := false }
  else
    let filtered_details := result.details.filter (fun d => web_booking.contains d.doctor)
    let total := (filtered_details.map (·.blocks)).sum
    { result with
        details := filtered_details
        total_30min_blocks := total
        result := decide (min_blocks ≤ total) }

/-- Outcome of the filter pass: rewritten results, whether any clinic had a
non-empty allow-list, and the recomputed `clinics_with_availability`. -/
structure FilteredData where
  results : List ClinicResult
  has_filter : Bool
  clinics_with_availability : Int
deriving DecidableEq, Repr

/-- The `for result in data['results']` loop of `apply_web_booking_filter`,
with the per-clinic body factored through `filter_clinic_result`: an
empty allow-list clears the clinic and leaves `has_filter` and the tally
untouched; a non-empty one sets `has_filter`, rewrites the clinic and counts
it when its recomputed `result` is true. -/
def awbfGo (staff_by_clinic : List (String × List String)) (min_blocks : Int) :
    List ClinicResult → FilteredData → FilteredData
  | [], acc => acc
  | r :: rest, acc =>
      let web_booking := (staff_by_clinic.lookup r.clinic).getD []
      let r' := filter_clinic_result staff_by_clinic min_blocks r
      awbfGo staff_by_clinic min_blocks rest
        { results := acc.results ++ [r'],
          has_filter := acc.has_filter || !web_booking.isEmpty,
          clinics_with_availability := acc.clinics_with_availability +
            (if !web_booking.isEmpty && r'.result then 1 else 0) }

/-- `apply_web_booking_filter` (`web/routes/results.py:48-96`).  The caller's
`summary.clinics_with_availability` is overwritten with the recomputed tally
only when `has_filter` is set (line 93-94). -/
def apply_web_booking_filter (results : List ClinicResult)
    (staff_by_clinic : List (String × List String)) (settings_min : Option Int) : FilteredData :=
  awbfGo staff_by_clinic (settings_min.getD 4) results
    { results := [], has_filter := false, clinics_with_availability := 0 }

theorem awbfGo_results (sbc : List (String × List String)) (m : Int) (rs : List ClinicResult) :
    ∀ acc : FilteredData,
      (awbfGo sbc m rs acc).results = acc.results ++ rs.map (filter_clinic_result sbc m) := by
  induction rs with
  | nil => intro acc; simp [awbfGo]
  | cons r rest ih =>
      intro acc
      simp only [awbfGo]
      rw [ih]
      simp

theorem awbfGo_tally (sbc : List (String × List String)) (m : Int) (rs : List ClinicResult) :
    ∀ acc : FilteredData,
      (awbfGo sbc m rs acc).clinics_with_availability
        = acc.clinics_with_availability +
            (((rs.filter (fun r => !((sbc.lookup r.clinic).getD []).isEmpty)).map
                (filter_clinic_result sbc m)).countP (·.result) : Nat) := by
  induction rs with
  | nil => intro acc; simp [awbfGo]
  | cons r rest ih =>
      intro acc
      simp only [awbfGo]
      rw [ih]
      rcases hwb : ((sbc.lookup r.clinic).getD []).isEmpty with _ | _
      · simp only [hwb, List.filter_cons]
        rcases hres : (filter_clinic_result sbc m r).result with _ | _
        · simp [hres]
        · simp [hres]
          ring
      · simp [hwb]

/-- C3 counterexample: with `minimum_blocks_required` configured as `0`, a
clinic whose `web_booking` allow-list is empty is cleared to
`result = false` although its (cleared) total `0` does reach the configured
minimum — the claimed equivalence `result ⇔ total ≥ minimum` fails. -/
theorem apply_web_booking_filter_counterexample :
    ((apply_web_booking_filter
        [{ clinic := "A", system := "dent-sys", result := true, total_30min_blocks := 7,
           details := [{ doctor := "Dr", blocks := 7, times := [], threshold_minutes := 30,
                         raw_slot_times := [], slot_interval := 5 }] }]
        [] (some 0)).results.all
      (fun r => r.result = decide ((0 : Int) ≤ r.total_30min_blocks))) = false := by
  decide

theorem filter_clinic_result_fields (sbc : List (String × List String)) (m : Int)
    (r : ClinicResult) (hm : 1 ≤ m) :
    (filter_clinic_result sbc m r).total_30min_blocks
        = ((filter_clinic_result sbc m r).details.map (·.blocks)).sum
    ∧ ((filter_clinic_result sbc m r).result = true
        ↔ m ≤ (filter_clinic_result sbc m r).total_30min_blocks) := by
  simp only [filter_clinic_result]
  by_cases hwb : ((sbc.lookup r.clinic).getD []) = []
  · rw [if_pos hwb]
    refine ⟨by simp, ?_⟩
    simp
    omega
  · rw [if_neg hwb]
    exact ⟨by simp, by simp⟩

/-- C3 (amended).  Provided the configured global minimum is at least `1`,
after the web-booking filter every clinic's `total_30min_blocks` equals the
sum of `blocks` over its `details` and `result` is true exactly when the
total reaches the minimum; a non-empty allow-list retains exactly the staff
it names (totals recomputed), while an empty allow-list clears the clinic
(`details = []`, total `0`, `result = false`), and the recomputed
`clinics_with_availability` tally counts only clinics with a non-empty
allow-list. -/
theorem apply_web_booking_filter_invariant (results : List ClinicResult)
    (sbc : List (String × List String)) (ms : Option Int)
    (hmin : 1 ≤ ms.getD 4) :
    (∀ r' ∈ (apply_web_booking_filter results sbc ms).results,
        r'.total_30min_blocks = (r'.details.map (·.blocks)).sum
        ∧ (r'.result = true ↔ ms.getD 4 ≤ r'.total_30min_blocks))
    ∧ (apply_web_booking_filter results sbc ms).results
        = results.map (filter_clinic_result sbc (ms.getD 4))
    ∧ (∀ r ∈ results,
        (((sbc.lookup r.clinic).getD []) = [] →
          filter_clinic_result sbc (ms.getD 4) r
            = { r with details := [], total_30min_blocks := 0, result := false })
        ∧ (((sbc.lookup r.clinic).getD []) ≠ [] →
          (filter_clinic_result sbc (ms.getD 4) r).details
            = r.details.filter (fun d => ((sbc.lookup r.clinic).getD []).contains d.doctor)))
    ∧ (apply_web_booking_filter results sbc ms).clinics_with_availability
        = ((((results.filter
              (fun r => !((sbc.lookup r.clinic).getD []).isEmpty)).map
              (filter_clinic_result sbc (ms.getD 4))).countP (·.result) : Nat) : Int) := by
  have hres : (apply_web_booking_filter results sbc ms).results
      = results.map (filter_clinic_result sbc (ms.getD 4)) := by
    unfold apply_web_booking_filter
    rw [awbfGo_results]
    rfl
  refine ⟨?_, hres, ?_, ?_⟩
  · intro r' hr'
    rw [hres, List.mem_map] at hr'
    obtain ⟨r, _, rfl⟩ := hr'
    exact filter_clinic_result_fields sbc (ms.getD 4) r hmin
  · intro r _
    constructor
    · intro hwb
      unfold filter_clinic_result
      rw [if_pos hwb]
    · intro hwb
      unfold filter_clinic_result
      rw [if_neg hwb]
  · unfold apply_web_booking_filter
    rw [awbfGo_tally]
    simp

/-- Witness for C3 (amended): one allow-listed clinic, one cleared clinic,
default minimum `4`. -/
theorem apply_web_booking_filter_invariant_witness :
    (1 : Int) ≤ (some (4 : Int)).getD 4
    ∧ (∀ r' ∈ (apply_web_booking_filter
          [{ clinic := "A", system := "dent-sys", result := true, total_30min_blocks := 7,
             details := [{ doctor := "Dr", blocks := 7, times := [], threshold_minutes := 30,
                           raw_slot_times := [], slot_interval := 5 }] },
           { clinic := "B", system := "stransa", result := true, total_30min_blocks := 5,
             details := [] }]
          [("A", ["Dr"])] (some 4)).results,
          r'.total_30min_blocks = (r'.details.map (·.blocks)).sum
          ∧ (r'.result = true ↔ (some (4 : Int)).getD 4 ≤ r'.total_30min_blocks)) :=
  ⟨by decide,
   (apply_web_booking_filter_invariant
      [{ clinic := "A", system := "dent-sys", result := true, total_30min_blocks := 7,
         details := [{ doctor := "Dr", blocks := 7, times := [], threshold_minutes := 30,
                       raw_slot_times := [], slot_interval := 5 }] },
       { clinic := "B", system := "stransa", result := true, total_30min_blocks := 5,
         details := [] }]
      [("A", ["Dr"])] (some 4) (by decide)).1⟩

/-! ### Result aggregation (`analyze_results`, `src/main.py:47-137`) for C8

The `staff_by_clinic` rules carry the fields `analyze_results` reads:
`doctors`, `hygienists` and the per-category `slot_threshold` entries
(each defaulting to 30 when absent). -/

/-- Per-clinic staff classification as read by `analyze_results`
(`src/main.py:88-93`). -/
structure StaffRules where
  doctors : List String
  hygienists : List String
  threshold_doctor : Option Int
  threshold_hygienist : Option Int
deriving DecidableEq, Repr

/-- `slot_settings` (`src/config_loader`: `minimum_blocks_required`,
`consecutive_slots_required`, `slot_interval_minutes`). -/
structure SlotSettings where
  minimum_blocks_required : Int
  consecutive_slots_required : Int
  slot_interval_minutes : Int
deriving DecidableEq, Repr

/-- The `for doctor_name, slot_times in doctor_slots.items()` loop of
`analyze_results` (`src/main.py:95-112`): pick the category threshold, run
`analyze_doctor_slots`, append the analysis only when `blocks > 0`.  An
analyzer exception propagates (`none`). -/
def doctorLoop (consecutive_required interval : Int)
    (doctors_set hygienists_set : List String) (dr_threshold dh_threshold : Int) :
    List (String × List Int) → Option (List StaffAnalysis)
  | [] => some []
  | (doctor_name, slot_times) :: rest =>
      let threshold :=
        if doctors_set.contains doctor_name then dr_threshold
        else if hygienists_set.contains doctor_name then dh_threshold
        else 30
      match analyze_doctor_slots doctor_name slot_times consecutive_required interval
          threshold with
      | none => none
      | some analysis =>
          (doctorLoop consecutive_required interval doctors_set hygienists_set
              dr_threshold dh_threshold rest).map
            (fun tail => if 0 < analysis.blocks then analysis :: tail else tail)

/-- The `for clinic_name, doctor_slots in scrape_results.items()` loop of
`analyze_results` (`src/main.py:84-127`); returns the `results` list and the
`clinics_with_availability` count. -/
def clinicLoop (consecutive_required interval minimum_blocks : Int) (system_type : String)
    (staff_by_clinic : List (String × StaffRules)) :
    List (String × List (String × List Int)) → Option (List ClinicResult × Int)
  | [] => some ([], 0)
  | (clinic_name, doctor_slots) :: rest =>
      let cfg := (staff_by_clinic.lookup clinic_name).getD
        { doctors := [], hygienists := [], threshold_doctor := none,
          threshold_hygienist := none }
      match doctorLoop consecutive_required interval cfg.doctors cfg.hygienists
          (cfg.threshold_doctor.getD 30) (cfg.threshold_hygienist.getD 30) doctor_slots with
      | none => none
      | some doctor_results =>
          let avail := check_clinic_availability doctor_results minimum_blocks
          (clinicLoop consecutive_required interval minimum_blocks system_type
              staff_by_clinic rest).map
            (fun acc =>
              ({ clinic := clinic_name, system := system_type, result := avail.1,
                 total_30min_blocks := avail.2, details := doctor_results } :: acc.1,
               (if avail.1 then 1 else 0) + acc.2))

/-- `analyze_results` (`src/main.py:47-137`): a `stransa` run fixes
`(consecutive, interval) = (2, 15)`, otherwise the configured slot settings
apply.  The artifact's `check_date`/`checked_at` fields are modelled
separately (`main_async_check_date`). -/
def analyze_results (scrape_results : List (String × List (String × List Int)))
    (slot_settings : SlotSettings) (system_type : String)
    (staff_by_clinic : List (String × StaffRules)) : Option (List ClinicResult × Int) :=
  if system_type = "stransa" then
    clinicLoop 2 15 slot_settings.minimum_blocks_required system_type
      staff_by_clinic scrape_results
  else
    clinicLoop slot_settings.consecutive_slots_required slot_settings.slot_interval_minutes
      slot_settings.minimum_blocks_required system_type staff_by_clinic scrape_results

/-- C8 counterexample — the spec's own end-to-end scenario 1.  Dr. X with
raw times `[555, 560]` (a run of 2, blocks 0) and Dr. Y with `[570]`
(blocks 0) are both dropped from `details` by the `blocks > 0` filter of
`analyze_results`; the aggregated clinic has `details = []`, not entries
with `blocks = 0`. -/
theorem analyze_results_drops_zero_block_staff :
    analyze_results [("Clinic-A", [("Dr. X", [555, 560]), ("Dr. Y", [570])])]
        { minimum_blocks_required := 4, consecutive_slots_required := 6,
          slot_interval_minutes := 5 } "dent-sys" []
      = some ([{ clinic := "Clinic-A", system := "dent-sys", result := false,
                 total_30min_blocks := 0, details := [] }], 0) := by
  decide

theorem doctorLoop_positive (cr iv drt dht : Int) (ds hs : List String)
    (pairs : List (String × List Int)) :
    ∀ out, doctorLoop cr iv ds hs drt dht pairs = some out →
      ∀ a ∈ out, 0 < a.blocks := by
  induction pairs with
  | nil =>
      intro out hout
      simp only [doctorLoop, Option.some.injEq] at hout
      subst hout
      intro a ha
      exact absurd ha (by simp)
  | cons p rest ih =>
      intro out hout
      obtain ⟨doctor_name, slot_times⟩ := p
      simp only [doctorLoop] at hout
      rcases han : analyze_doctor_slots doctor_name slot_times cr iv
          (if ds.contains doctor_name then drt
           else if hs.contains doctor_name then dht else 30) with _ | analysis
      · rw [han] at hout
        exact absurd hout (by simp)
      · rw [han] at hout
        rcases htl : doctorLoop cr iv ds hs drt dht rest with _ | tail
        · rw [htl] at hout
          exact absurd hout (by simp)
        · rw [htl] at hout
          simp only [Option.map_some', Option.some.injEq] at hout
          subst hout
          intro a ha
          by_cases hb : 0 < analysis.blocks
          · rw [if_pos hb] at ha
            rcases List.mem_cons.mp ha with rfl | ha
            · exact hb
            · exact ih tail htl a ha
          · rw [if_neg hb] at ha
            exact ih tail htl a ha

theorem clinicLoop_details_positive (cr iv mb : Int) (st : String)
    (sbc : List (String × StaffRules)) (l : List (String × List (String × List Int))) :
    ∀ out, clinicLoop cr iv mb st sbc l = some out →
      ∀ c ∈ out.1, ∀ a ∈ c.details, 0 < a.blocks := by
  induction l with
  | nil =>
      intro out hout
      simp only [clinicLoop, Option.some.injEq] at hout
      subst hout
      intro c hc
      exact absurd hc (by simp)
  | cons p rest ih =>
      intro out hout
      obtain ⟨clinic_name, doctor_slots⟩ := p
      simp only [clinicLoop] at hout
      rcases hdl : doctorLoop cr iv
          (((sbc.lookup clinic_name).getD
            { doctors := [], hygienists := [], threshold_doctor := none,
              threshold_hygienist := none }).doctors)
          (((sbc.lookup clinic_name).getD
            { doctors := [], hygienists := [], threshold_doctor := none,
              threshold_hygienist := none }).hygienists)
          (((sbc.lookup clinic_name).getD
            { doctors := [], hygienists := [], threshold_doctor := none,
              threshold_hygienist := none }).threshold_doctor.getD 30)
          (((sbc.lookup clinic_name).getD
            { doctors := [], hygienists := [], threshold_doctor := none,
              threshold_hygienist := none }).threshold_hygienist.getD 30)
          doctor_slots with _ | doctor_results
      · rw [hdl] at hout
        exact absurd hout (by simp)
      · rw [hdl] at hout
        rcases hcl : clinicLoop cr iv mb st sbc rest with _ | acc
        · rw [hcl] at hout
          exact absurd hout (by simp)
        · rw [hcl] at hout
          simp only [Option.map_some', Option.some.injEq] at hout
          subst hout
          intro c hc
          rcases List.mem_cons.mp hc with rfl | hc
          · intro a ha
            exact doctorLoop_positive cr iv
              (((sbc.lookup clinic_name).getD
                { doctors := [], hygienists := [], threshold_doctor := none,
                  threshold_hygienist := none }).threshold_doctor.getD 30)
              (((sbc.lookup clinic_name).getD
                { doctors := [], hygienists := [], threshold_doctor := none,
                  threshold_hygienist := none }).threshold_hygienist.getD 30)
              _ _ doctor_slots doctor_results hdl a ha
          · exact ih acc hcl c hc

/-- C8 (amended).  `analyze_results` keeps a staff member's analysis in a
clinic's `details` only when its block count is positive: every entry of
every aggregated `details` list has `blocks > 0`, so zero-block staff (such
as a doctor with raw times `[555, 560]` under threshold 30 at interval 5)
are omitted. -/
theorem analyze_results_details_positive
    (scrape_results : List (String × List (String × List Int))) (ss : SlotSettings)
    (st : String) (sbc : List (String × StaffRules)) (out : List ClinicResult × Int)
    (h : analyze_results scrape_results ss st sbc = some out) :
    ∀ c ∈ out.1, ∀ a ∈ c.details, 0 < a.blocks := by
  unfold analyze_results at h
  by_cases hst : st = "stransa"
  · rw [if_pos hst] at h
    exact clinicLoop_details_positive 2 15 ss.minimum_blocks_required st sbc
      scrape_results out h
  · rw [if_neg hst] at h
    exact clinicLoop_details_positive ss.consecutive_slots_required ss.slot_interval_minutes
      ss.minimum_blocks_required st sbc scrape_results out h

/-- Witness for C8 (amended) on the spec's scenario 1 input. -/
theorem analyze_results_details_positive_witness :
    analyze_results [("Clinic-A", [("Dr. X", [555, 560]), ("Dr. Y", [570])])]
        { minimum_blocks_required := 4, consecutive_slots_required := 6,
          slot_interval_minutes := 5 } "dent-sys" []
      = some ([{ clinic := "Clinic-A", system := "dent-sys", result := false,
                 total_30min_blocks := 0, details := [] }], 0)
    ∧ ∀ c ∈ (([({ clinic := "Clinic-A", system := "dent-sys", result := false,
                  total_30min_blocks := 0, details := [] } : ClinicResult)],
              (0 : Int)) : List ClinicResult × Int).1,
        ∀ a ∈ c.details, 0 < a.blocks :=
  ⟨by decide,
   analyze_results_details_positive
     [("Clinic-A", [("Dr. X", [555, 560]), ("Dr. Y", [570])])]
     { minimum_blocks_required := 4, consecutive_slots_required := 6,
       slot_interval_minutes := 5 } "dent-sys" []
     ([{ clinic := "Clinic-A", system := "dent-sys", result := false,
         total_30min_blocks := 0, details := [] }], 0)
     (by decide)⟩

/-! ### C5: `check_date` and the operational time zone

Wall-clock instants are integer minutes since an epoch; a calendar date is
identified with its day index `⌊t / 1440⌋` (the `strftime('%Y-%m-%d')`
output is a function of exactly this index).  `datetime.now()` reads the
host-local clock `utc + hostOffset`; `datetime.now(JST)` reads
`utc + 540`. -/

/-- JST is UTC+9 (`web/routes/results.py:480`, `timezone(timedelta(hours=9))`),
in minutes. -/
def JST_OFFSET : Int := 540

/-- Day index of an instant in minutes. -/
def dayOf (t : Int) : Int := Int.fdiv t 1440

/-- The JST calendar day of a UTC instant. -/
def jstToday (utc : Int) : Int := dayOf (utc + JST_OFFSET)

/-- `check_date` as computed by the CLI path
(`src/main.py:241`, and identically `src/main.py:65`):
`(datetime.now() + timedelta(days=1)).strftime('%Y-%m-%d')` on the naive
host-local clock. -/
def main_async_check_date (utc hostOffset : Int) : Int := dayOf (utc + hostOffset + 1440)

/-- `check_date` as computed by the web in-process path
(`web/routes/results.py:480-481`):
`(datetime.now(JST) + timedelta(days=1)).strftime('%Y-%m-%d')`. -/
def run_check_check_date (utc : Int) : Int := dayOf (utc + JST_OFFSET + 1440)

/-- C5 counterexample: on a host clock at UTC−10 (offset −600 min), at the
UTC epoch instant the CLI artifact's `check_date` is day 0 while today+1 in
JST is day 1 — `main_async` uses the naive host clock, not JST. -/
theorem main_async_check_date_not_jst :
    main_async_check_date 0 (-600) ≠ dayOf (0 + JST_OFFSET) + 1 := by
  decide

/-- C5 (amended).  The web `run_check` path always records
`check_date = today + 1` in JST; the CLI `main_async` path records
`today + 1` on the host-local clock, which agrees with the JST contract
exactly when the host clock offset is +9 h. -/
theorem check_date_timezone_contract (utc hostOffset : Int) :
    run_check_check_date utc = jstToday utc + 1
    ∧ main_async_check_date utc hostOffset = dayOf (utc + hostOffset) + 1
    ∧ (hostOffset = JST_OFFSET → main_async_check_date utc hostOffset = jstToday utc + 1) := by
  have hday : ∀ t : Int, dayOf (t + 1440) = dayOf t + 1 := by
    intro t
    unfold dayOf
    rw [Int.fdiv_eq_ediv _ (by norm_num), Int.fdiv_eq_ediv _ (by norm_num)]
    omega
  refine ⟨hday (utc + JST_OFFSET), hday (utc + hostOffset), ?_⟩
  intro h
  subst h
  exact hday (utc + JST_OFFSET)

/-- Witness for C5 (amended) at `utc = 100`, host offset `540` (JST). -/
theorem check_date_timezone_contract_witness :
    run_check_check_date 100 = jstToday 100 + 1
    ∧ main_async_check_date 100 JST_OFFSET = jstToday 100 + 1 :=
  ⟨(check_date_timezone_contract 100 JST_OFFSET).1,
   (check_date_timezone_contract 100 JST_OFFSET).2.2 rfl⟩

/-! ### C4: back-end scheduling order

The temporal claim is settled against the control structure of the two code
paths.  `_scrape_all` (`web/routes/results.py:436-465`) awaits the Stransa
(SPA) scrape to completion and only then awaits the dent-sys (legacy)
scrape — sequential, SPA first.  `main_async` (`src/main.py:204-228`)
builds both coroutines and runs them through one `asyncio.gather` —
concurrent, not sequential.  Within a back-end the per-clinic workers share
a semaphore: `asyncio.Semaphore(3)` in `scrape_all_clinics`
(`src/scraper.py:603`) and `asyncio.Semaphore(4)` in
`scrape_all_stransa_clinics` (`src/scraper_stransa.py:678`). -/

/-- How a run executes its back-end scrapes: one after the other in the
given order, or gathered concurrently. -/
inductive ScrapePlan where
  | sequential (order : List String)
  | concurrent (tasks : List String)
deriving DecidableEq, Repr

/-- The schedule of `_scrape_all` (`web/routes/results.py:436-465`) given
which clinic lists are nonempty: Stransa is awaited first, then dent-sys. -/
def web_scrape_plan (hasStransa hasDentSys : Bool) : ScrapePlan :=
  .sequential ((if hasStransa then ["stransa"] else [])
    ++ (if hasDentSys then ["dent-sys"] else []))

/-- The schedule of `main_async` (`src/main.py:204-228`): the dent-sys and
Stransa coroutines are appended to `scrape_tasks` (legacy first) and run by
a single `asyncio.gather`. -/
def main_async_scrape_plan (hasDentSys hasStransa : Bool) : ScrapePlan :=
  .concurrent ((if hasDentSys then ["dent-sys"] else [])
    ++ (if hasStransa then ["stransa"] else []))

/-- Per-back-end worker-pool bound: `asyncio.Semaphore(3)`
(`src/scraper.py:603`). -/
def dent_sys_semaphore_limit : Nat := 3

/-- Per-back-end worker-pool bound: `asyncio.Semaphore(4)`
(`src/scraper_stransa.py:678`). -/
def stransa_semaphore_limit : Nat := 4

/-- C4 counterexample: with both back-ends configured, neither code path
runs the legacy back-end to completion before the SPA back-end starts — the
web path is sequential but awaits Stransa (SPA) first, and the CLI path
gathers both concurrently. -/
theorem backend_order_counterexample :
    web_scrape_plan true true ≠ ScrapePlan.sequential ["dent-sys", "stransa"]
    ∧ web_scrape_plan true true = ScrapePlan.sequential ["stransa", "dent-sys"]
    ∧ main_async_scrape_plan true true = ScrapePlan.concurrent ["dent-sys", "stransa"] := by
  decide

/-- C4 (amended).  In the web in-process path the two back-ends are scraped
sequentially with the SPA (Stransa) back-end completing before the legacy
(dent-sys) back-end starts; in the CLI path both back-ends are launched
concurrently under one `gather`.  Within a back-end, per-clinic workers are
bounded by that back-end's semaphore (3 for legacy, 4 for SPA). -/
theorem backend_schedule :
    web_scrape_plan true true = ScrapePlan.sequential ["stransa", "dent-sys"]
    ∧ main_async_scrape_plan true true = ScrapePlan.concurrent ["dent-sys", "stransa"]
    ∧ dent_sys_semaphore_limit = 3
    ∧ stransa_semaphore_limit = 4 := by
  decide

/-! ### C9: the `/check` run-request route (`web/routes/results.py:338-534`)

The route's externally visible decision: if the checker thread is alive the
request is rejected with HTTP 409 and a JSON body
`{'success': False, 'message': '既にチェック実行中です（<elapsed>秒経過）'}`;
otherwise a background thread is started and the route returns the Flask
default status 200 with `{'success': True, 'message': ...}`.  JSON bodies
are modelled as association lists over `JVal`. -/

/-- A JSON scalar as used by the route's responses. -/
inductive JVal where
  | b (v : Bool)
  | s (v : String)
deriving DecidableEq, Repr

/-- `{'dent-sys': 'dent-sys', 'stransa': 'Stransa'}.get(system_filter,
'全システム')` (`web/routes/results.py:530`). -/
def system_label (system_filter : Option String) : String :=
  match system_filter with
  | some "dent-sys" => "dent-sys"
  | some "stransa" => "Stransa"
  | _ => "全システム"

/-- The response of `run_check` (`web/routes/results.py:338-534`): `busy`
is `_check_thread and _check_thread.is_alive()`; `elapsed` is
`int(time.time() - (_check_started_at or time.time()))`. -/
def run_check_response (busy : Bool) (now : Int) (check_started_at : Option Int)
    (system_filter : Option String) : Nat × List (String × JVal) :=
  if busy then
    let elapsed := now - check_started_at.getD now
    (409, [("success", JVal.b false),
           ("message", JVal.s ("既にチェック実行中です（" ++ toString elapsed ++ "秒経過）"))])
  else
    (200, [("success", JVal.b true),
           ("message", JVal.s (system_label system_filter ++ "のチェックを開始しました"))])

/-- C9 counterexample: a busy run started 58 s ago is rejected with 409, but
the body has no `elapsed_seconds` field (the elapsed time only appears
inside the message string); an accepted request returns 200 — not 202 — and
carries no `task_id`. -/
theorem run_check_response_counterexample :
    (run_check_response true 100 (some 42) none).1 = 409
    ∧ (run_check_response true 100 (some 42) none).2.lookup "elapsed_seconds" = none
    ∧ (run_check_response false 100 none (some "dent-sys")).1 = 200
    ∧ (run_check_response false 100 none (some "dent-sys")).1 ≠ 202
    ∧ (run_check_response false 100 none (some "dent-sys")).2.lookup "task_id" = none := by
  decide

/-- C9 (amended).  While a run is in progress any further run request is
rejected with HTTP 409 and `success = false`, the elapsed seconds of the
in-flight run carried inside the message text (no `elapsed_seconds` field);
a request accepted while idle returns HTTP 200 (not 202) with
`success = true` and no task id. -/
theorem run_check_response_spec (now : Int) (sa : Option Int) (sf : Option String) :
    run_check_response true now sa sf
      = (409, [("success", JVal.b false),
               ("message", JVal.s ("既にチェック実行中です（"
                  ++ toString (now - sa.getD now) ++ "秒経過）"))])
    ∧ (run_check_response true now sa sf).2.lookup "elapsed_seconds" = none
    ∧ run_check_response false now sa sf
      = (200, [("success", JVal.b true),
               ("message", JVal.s (system_label sf ++ "のチェックを開始しました"))])
    ∧ (run_check_response false now sa sf).2.lookup "task_id" = none := by
  refine ⟨rfl, ?_, rfl, ?_⟩ <;> simp [run_check_response, List.lookup]

/-! ### C10: `TaskManager` with an unknown task id (`web/task_manager.py`)

State: the in-memory `_tasks` map, the object-storage (GCS) task store, the
local task files, and whether GCS is configured.  Saving prepends to a
store; `lookup` finds the newest entry. -/

/-- `TaskProgress` (`web/task_manager.py:22-27`). -/
structure TaskProgress where
  current : Int
  total : Int
  current_clinic : String
deriving DecidableEq, Repr

/-- `TaskInfo` (`web/task_manager.py:30-47`); `result` holds an opaque
reference to the run artifact. -/
structure TaskInfo where
  task_id : String
  status : String
  started_at : String
  updated_at : String
  completed_at : Option String
  progress : Option TaskProgress
  error : Option String
  result : Option String
deriving DecidableEq, Repr

/-- The durable and in-memory state owned by the `TaskManager` singleton. -/
structure TMState where
  tasks : List (String × TaskInfo)
  gcs : List (String × TaskInfo)
  files : List (String × TaskInfo)
  gcs_enabled : Bool
deriving DecidableEq, Repr

/-- `_load_task_from_file` (`web/task_manager.py:181-209`): GCS first when
enabled, then the local file. -/
def load_task_from_file (st : TMState) (task_id : String) : Option TaskInfo :=
  if st.gcs_enabled then
    match st.gcs.lookup task_id with
    | some t => some t
    | none => st.files.lookup task_id
  else st.files.lookup task_id

/-- `get_task` (`web/task_manager.py:105-113`): memory cache first, else the
durable stores. -/
def get_task (st : TMState) (task_id : String) : Option TaskInfo :=
  match st.tasks.lookup task_id with
  | some t => some t
  | none => load_task_from_file st task_id

/-- `_save_task_to_file` (`web/task_manager.py:161-179`): write to GCS when
enabled, then to the local file (the success path; a failed local write
keeps the in-memory entry). -/
def save_task_to_file (st : TMState) (t : TaskInfo) : TMState :=
  { st with
      gcs := if st.gcs_enabled then (t.task_id, t) :: st.gcs else st.gcs
      files := (t.task_id, t) :: st.files }

/-- `update_task` (`web/task_manager.py:115-128`): look the task up in
memory, else load it; an unknown id returns with no effect.  `apply_kwargs`
models the `setattr` loop over `**kwargs`. -/
def update_task (st : TMState) (task_id : String) (apply_kwargs : TaskInfo → TaskInfo)
    (now : String) : TMState :=
  match st.tasks.lookup task_id with
  | some task => update_task_found st task_id task apply_kwargs now
  | none =>
      match load_task_from_file st task_id with
      | some task => update_task_found st task_id task apply_kwargs now
      | none => st
where
  /-- The body after a successful lookup: apply the kwargs, stamp
  `updated_at`, store in memory, persist. -/
  update_task_found (st : TMState) (task_id : String) (task : TaskInfo)
      (apply_kwargs : TaskInfo → TaskInfo) (now : String) : TMState :=
    let task := { apply_kwargs task with updated_at := now }
    save_task_to_file { st with tasks := (task_id, task) :: st.tasks } task

/-- `complete_task` (`web/task_manager.py:143-150`). -/
def complete_task (st : TMState) (task_id : String) (result : String) (now : String) : TMState :=
  update_task st task_id
    (fun t => { t with status := "completed", completed_at := some now, result := some result })
    now

/-- `fail_task` (`web/task_manager.py:152-159`). -/
def fail_task (st : TMState) (task_id : String) (error : String) (now : String) : TMState :=
  update_task st task_id
    (fun t => { t with status := "failed", completed_at := some now, error := some error })
    now

/-- C10.  Calling `update_task` (and therefore `complete_task` or
`fail_task`) with a task id known neither to the in-memory map nor to any
durable store is a silent no-op: the state is returned unchanged — no task
created, none modified, no error — and `get_task` returns `none` for that
id. -/
theorem update_task_unknown_id_noop (st : TMState) (task_id : String)
    (f : TaskInfo → TaskInfo) (now res err : String)
    (hmem : st.tasks.lookup task_id = none)
    (hgcs : st.gcs.lookup task_id = none)
    (hfile : st.files.lookup task_id = none) :
    update_task st task_id f now = st
    ∧ complete_task st task_id res now = st
    ∧ fail_task st task_id err now = st
    ∧ get_task st task_id = none := by
  have hload : load_task_from_file st task_id = none := by
    unfold load_task_from_file
    by_cases hg : st.gcs_enabled
    · rw [if_pos hg, hgcs]
      exact hfile
    · rw [if_neg hg]
      exact hfile
  have hupd : ∀ g : TaskInfo → TaskInfo, update_task st task_id g now = st := by
    intro g
    unfold update_task
    rw [hmem, hload]
  exact ⟨hupd f, hupd _, hupd _, by unfold get_task; rw [hmem]; exact hload⟩

/-- Witness for C10: the empty manager state and a fresh id. -/
theorem update_task_unknown_id_noop_witness :
    ({ tasks := [], gcs := [], files := [], gcs_enabled := true } : TMState).tasks.lookup
        "20261012_120000" = none
    ∧ (update_task { tasks := [], gcs := [], files := [], gcs_enabled := true }
          "20261012_120000" id "2026-10-12T12:00:01" =
        { tasks := [], gcs := [], files := [], gcs_enabled := true }
      ∧ complete_task { tasks := [], gcs := [], files := [], gcs_enabled := true }
          "20261012_120000" "ref" "2026-10-12T12:00:01" =
        { tasks := [], gcs := [], files := [], gcs_enabled := true }
      ∧ fail_task { tasks := [], gcs := [], files := [], gcs_enabled := true }
          "20261012_120000" "boom" "2026-10-12T12:00:01" =
        { tasks := [], gcs := [], files := [], gcs_enabled := true }
      ∧ get_task { tasks := [], gcs := [], files := [], gcs_enabled := true }
          "20261012_120000" = none) :=
  ⟨rfl,
   update_task_unknown_id_noop
     { tasks := [], gcs := [], files := [], gcs_enabled := true }
     "20261012_120000" id "2026-10-12T12:00:01" "ref" "boom" rfl rfl rfl⟩

/-! ### C7: the SPA adapter's empty-cell predicate
(`src/scraper_stransa.py:535-597`)

A cell extracted by the batched DOM evaluation carries its text, class
string, inline style and the `colspan`/`rowspan` attributes (absent
attributes read as `""`).  Python's `in` on strings is the substring test
`strContains`. -/

/-- One extracted table cell (`src/scraper_stransa.py:498-504`). -/
structure Cell where
  text : String
  className : String
  style : String
  colspan : String
  rowspan : String
deriving DecidableEq, Repr

/-- `startsWithChars pat l` : `pat` is a prefix of `l`. -/
def startsWithChars : List Char → List Char → Bool
  | [], _ => true
  | _ :: _, [] => false
  | p :: ps, c :: cs => p = c && startsWithChars ps cs

/-- `hasSubstrChars pat l` : `pat` occurs contiguously in `l`. -/
def hasSubstrChars (pat : List Char) : List Char → Bool
  | [] => startsWithChars pat []
  | c :: cs => startsWithChars pat (c :: cs) || hasSubstrChars pat cs

/-- Python `pat in s` for strings. -/
def strContains (s pat : String) : Bool := hasSubstrChars pat.data s.data

/-- Python `str.strip()` whitespace (the ASCII set `' \t\n\r\x0b\x0c'`). -/
def isPySpace (c : Char) : Bool :=
  c = ' ' || c = '\t' || c = '\n' || c = '\r' || c = Char.ofNat 11 || c = Char.ofNat 12

/-- Python `str.strip()`. -/
def pystrip (s : String) : String :=
  ⟨((s.data.dropWhile isPySpace).reverse.dropWhile isPySpace).reverse⟩

/-- `cell_text.replace('\xa0', '').replace('​', '').strip()`
(`src/scraper_stransa.py:569`): drop non-breaking and zero-width spaces,
then strip. -/
def stripNbspZwsp (s : String) : String :=
  pystrip ⟨s.data.filter (fun c => c ≠ Char.ofNat 160 && c ≠ Char.ofNat 8203)⟩

/-- Python `str.lower()` over the ASCII range (class names and inline
styles here are ASCII). -/
def pyToLower (s : String) : String :=
  ⟨s.data.map (fun c => if 65 ≤ c.toNat ∧ c.toNat ≤ 90 then Char.ofNat (c.toNat + 32) else c)⟩

/-- `blocked_indicators` (`src/scraper_stransa.py:535-537`). -/
def blocked_indicators : List String :=
  ["closed", "blocked", "disabled", "holiday", "off", "gray", "lunch", "break",
   "reserve", "past", "empty", "none", "unavailable", "inactive"]

/-- The whitelisted background fragments (`src/scraper_stransa.py:589`). -/
def white_background_markers : List String := ["#fff", "white", "transparent", "rgb(255"]

/-- The per-cell free-slot decision of `get_stransa_empty_slots`
(`src/scraper_stransa.py:567-597`): the chain of `continue` guards — text,
spans, class blocklist, then the style checks (only entered for a non-empty
style): a `background` not referencing a whitelisted colour blocks, and a
style containing both `display` and `none` blocks regardless of
`background`. -/
def is_free_cell (cell : Cell) : Bool :=
  let cell_clean := stripNbspZwsp cell.text
  if cell_clean ≠ "" then false
  else if cell.colspan ≠ "" && cell.colspan ≠ "1" then false
  else if cell.rowspan ≠ "" && cell.rowspan ≠ "1" then false
  else if blocked_indicators.any (fun ind => strContains (pyToLower cell.className) ind) then false
  else if cell.style ≠ "" then
    if strContains (pyToLower cell.style) "background"
        && !(white_background_markers.any (fun w => strContains (pyToLower cell.style) w)) then
      false
    else if strContains (pyToLower cell.style) "display"
        && strContains (pyToLower cell.style) "none" then
      false
    else true
  else true

/-- The empty-cell predicate in the words of the specification: the
`display:none` exclusion is scoped *inside* the `background` condition. -/
def spec_free_cell (cell : Cell) : Prop :=
  stripNbspZwsp cell.text = ""
  ∧ (cell.colspan = "" ∨ cell.colspan = "1")
  ∧ (cell.rowspan = "" ∨ cell.rowspan = "1")
  ∧ (∀ ind ∈ blocked_indicators, strContains (pyToLower cell.className) ind = false)
  ∧ (strContains (pyToLower cell.style) "background" = true →
      ((∃ w ∈ white_background_markers, strContains (pyToLower cell.style) w = true)
        ∧ ¬(strContains (pyToLower cell.style) "display" = true
              ∧ strContains (pyToLower cell.style) "none" = true)))

/-- C7 counterexample: a blank, unspanned, unclassed cell whose inline style
is `display:none` (no `background`) satisfies the spec's predicate — its
clause 4 is vacuous without `background` — yet the code rejects it: the
`display`/`none` guard runs independently of `background`. -/
theorem empty_cell_predicate_counterexample :
    spec_free_cell
        { text := "", className := "", style := "display:none", colspan := "", rowspan := "" }
    ∧ is_free_cell
        { text := "", className := "", style := "display:none", colspan := "", rowspan := "" }
      = false := by
  constructor
  · unfold spec_free_cell
    decide
  · decide

/-- C7 (amended).  A cell is recorded as a free slot iff its text is empty
after stripping non-breaking and zero-width whitespace, its `colspan` and
`rowspan` are absent or `1`, its class contains no blocklist fragment, its
style — *whenever* it mentions `background` — references a whitelisted
colour, and its style does not contain both `display` and `none` (this last
exclusion is independent of `background`, unlike the spec's wording). -/
theorem is_free_cell_iff (cell : Cell) :
    is_free_cell cell = true ↔
      (stripNbspZwsp cell.text = ""
      ∧ (cell.colspan = "" ∨ cell.colspan = "1")
      ∧ (cell.rowspan = "" ∨ cell.rowspan = "1")
      ∧ (∀ ind ∈ blocked_indicators, strContains (pyToLower cell.className) ind = false)
      ∧ (strContains (pyToLower cell.style) "background" = true →
          ∃ w ∈ white_background_markers, strContains (pyToLower cell.style) w = true)
      ∧ ¬(strContains (pyToLower cell.style) "display" = true
            ∧ strContains (pyToLower cell.style) "none" = true)) := by
  simp only [is_free_cell]
  split_ifs with h1 h2 h3 h4 h5 h6 h7
  · simp [h1]
  · simp only [Bool.and_eq_true, decide_eq_true_eq] at h2
    simp [h2.1, h2.2]
  · simp only [Bool.and_eq_true, decide_eq_true_eq] at h3
    simp [h3.1, h3.2]
  · rw [List.any_eq_true] at h4
    obtain ⟨ind, hind, hcontains⟩ := h4
    simp only [false_iff]
    intro hall
    exact absurd (hall.2.2.2.1 ind hind) (by simp [hcontains])
  · simp only [Bool.and_eq_true, Bool.not_eq_true', List.any_eq_false] at h6
    simp only [false_iff]
    intro hall
    obtain ⟨w, hw, hcw⟩ := hall.2.2.2.2.1 h6.1
    exact absurd hcw (by simp [h6.2 w hw])
  · simp only [Bool.and_eq_true] at h7
    simp only [false_iff]
    intro hall
    exact hall.2.2.2.2.2 h7
  · push_neg at h1
    simp only [Bool.not_eq_true, List.any_eq_false] at h4
    simp only [true_iff]
    refine ⟨h1, ?_, ?_, h4, ?_, ?_⟩
    · by_cases hc : cell.colspan = ""
      · exact Or.inl hc
      · refine Or.inr (by_contra fun hc1 => h2 (by simp [hc, hc1]))
    · by_cases hc : cell.rowspan = ""
      · exact Or.inl hc
      · refine Or.inr (by_contra fun hc1 => h3 (by simp [hc, hc1]))
    · intro hbg
      have hany : (white_background_markers.any
          fun w => strContains (pyToLower cell.style) w) = true := by
        by_contra hany
        rw [Bool.not_eq_true] at hany
        exact h6 (by simp [hbg, hany])
      rw [List.any_eq_true] at hany
      exact hany
    · rintro ⟨hd, hn⟩
      exact h7 (by simp [hd, hn])
  · push_neg at h1
    simp only [Bool.not_eq_true, List.any_eq_false] at h4
    push_neg at h5
    have hbgf : strContains (pyToLower cell.style) "background" = false := by
      rw [h5]
      decide
    have hdf : strContains (pyToLower cell.style) "display" = false := by
      rw [h5]
      decide
    simp only [true_iff]
    refine ⟨h1, ?_, ?_, h4, ?_, ?_⟩
    · by_cases hc : cell.colspan = ""
      · exact Or.inl hc
      · refine Or.inr (by_contra fun hc1 => h2 (by simp [hc, hc1]))
    · by_cases hc : cell.rowspan = ""
      · exact Or.inl hc
      · refine Or.inr (by_contra fun hc1 => h3 (by simp [hc, hc1]))
    · intro hbg
      rw [hbgf] at hbg
      exact absurd hbg (by simp)
    · rintro ⟨hd, hn⟩
      rw [hdf] at hd
      exact absurd hd (by simp)

/-! ### C6: the row-time mapper (`build_row_time_mapping`,
`src/scraper.py:224-310`)

The batched DOM read gives, per table row, the first cell's trimmed text
and whether the row has any anchor; rows with fewer than two cells arrive
as `null` (`none`) and are skipped.  The Python loop keeps a dict
`row_map`, the current hour, and `row_idx`; `prev_time` is
`row_map.get(row_idx - 1, -1)`. -/

/-- One row descriptor from the batched evaluation
(`src/scraper.py:235-245`). -/
structure Row where
  text : String
  hasLinks : Bool
deriving DecidableEq, Repr

/-- Digit value of an ASCII digit. -/
def digitVal (c : Char) : Nat := c.toNat - 48

/-- The regex `^(\d{1,2}):(\d{2})$` (`src/scraper.py:254`): one or two
digits, a colon, exactly two digits. -/
def matchHMM (s : String) : Option (Nat × Nat) :=
  match s.data with
  | [a, b, c, d] =>
      if a.isDigit && b = ':' && c.isDigit && d.isDigit then
        some (digitVal a, 10 * digitVal c + digitVal d)
      else none
  | [a, b, c, d, e] =>
      if a.isDigit && b.isDigit && c = ':' && d.isDigit && e.isDigit then
        some (10 * digitVal a + digitVal b, 10 * digitVal d + digitVal e)
      else none
  | _ => none

/-- Python `str.isdigit()` over ASCII digits. -/
def pyIsDigitStr (s : String) : Bool := !s.data.isEmpty && s.data.all (·.isDigit)

/-- Python `int(...)` of a digit string. -/
def strToNat (s : String) : Nat := s.data.foldl (fun a c => 10 * a + digitVal c) 0

/-- The mapper's loop state: the dict entries in insertion order, the
current hour, and the next row index. -/
structure MapState where
  row_map : List (Nat × Int)
  current_hour : Option Int
  row_idx : Nat
deriving DecidableEq, Repr

/-- `row_map.get(row_idx - 1, -1)` (`src/scraper.py:273`; Python's `-1` key
is absent exactly when `row_idx = 0`, where the dict is still empty). -/
def prevTime (st : MapState) : Int := (st.row_map.lookup (st.row_idx - 1)).getD (-1)

/-- The trailing anchor-row branch (`src/scraper.py:292-297`): an empty or
unparsed first cell on a row that has links, with an hour known,
interpolates `prev + interval` (and advances `row_idx` even when the
previous row was unmapped); otherwise the row is skipped entirely. -/
def linksRowStep (slot_interval : Int) (st : MapState) (row : Row) : MapState :=
  if row.hasLinks ∧ st.current_hour.isSome then
    if (st.row_map.lookup (st.row_idx - 1)).isSome then
      { row_map := st.row_map ++ [(st.row_idx, prevTime st + slot_interval)],
        current_hour := st.current_hour, row_idx := st.row_idx + 1 }
    else { st with row_idx := st.row_idx + 1 }
  else st

/-- One iteration of the row loop (`src/scraper.py:247-297`). -/
def rowStep (slot_interval : Int) (st : MapState) (row : Row) : MapState :=
  match matchHMM row.text with
  | some (h, m) =>
      { row_map := st.row_map ++ [(st.row_idx, (h : Int) * 60 + (m : Int))],
        current_hour := some (h : Int), row_idx := st.row_idx + 1 }
  | none =>
      if pyIsDigitStr row.text then
        let val : Int := (strToNat row.text : Int)
        match st.current_hour with
        | none =>
            if val ≤ 23 then
              { row_map := st.row_map ++ [(st.row_idx, val * 60)],
                current_hour := some val, row_idx := st.row_idx + 1 }
            else linksRowStep slot_interval st row
        | some current_hour =>
            if val < 60 ∧ current_hour * 60 + val > prevTime st then
              { row_map := st.row_map ++ [(st.row_idx, current_hour * 60 + val)],
                current_hour := some current_hour, row_idx := st.row_idx + 1 }
            else if val ≤ 23 ∧ val > current_hour then
              { row_map := st.row_map ++ [(st.row_idx, val * 60)],
                current_hour := some val, row_idx := st.row_idx + 1 }
            else if val ≤ 23 ∧ val = current_hour ∧ val * 60 > prevTime st then
              { row_map := st.row_map ++ [(st.row_idx, val * 60)],
                current_hour := some val, row_idx := st.row_idx + 1 }
            else linksRowStep slot_interval st row
      else linksRowStep slot_interval st row

/-- The initial loop state (`src/scraper.py:229-231`). -/
def rowMapInitState : MapState :=
  { row_map := [], current_hour := none, row_idx := 0 }

/-- `build_row_time_mapping` (`src/scraper.py:224-310`): fold the row loop
over the row descriptors (`null` rows skipped) and return the dict. -/
def build_row_time_mapping (slot_interval : Int) (rows : List (Option Row)) :
    List (Nat × Int) :=
  (rows.foldl
    (fun st orow =>
      match orow with
      | none => st
      | some row => rowStep slot_interval st row)
    rowMapInitState).row_map

/-- The spec's invariant: whenever two row indices are both mapped, the
larger index carries the strictly later minute. -/
def StrictlyIncreasingMap (m : List (Nat × Int)) : Prop :=
  ∀ p ∈ m, ∀ q ∈ m, p.1 < q.1 → p.2 < q.2

/-- C6 counterexample: two absolute-time rows out of order.  `H:MM` rows
are emitted with no comparison against the previous minute, so
`["9:00", "8:30"]` maps row 0 to 540 and row 1 to 510 — not increasing. -/
theorem build_row_time_mapping_counterexample :
    build_row_time_mapping 5 [some { text := "9:00", hasLinks := false },
                              some { text := "8:30", hasLinks := false }]
        = [(0, 540), (1, 510)]
    ∧ ¬ StrictlyIncreasingMap [(0, 540), (1, 510)] := by
  constructor
  · decide
  · unfold StrictlyIncreasingMap
    decide

/-- The guard the mapper itself enforces only on some branches: the step
from `st` to `st'` either maps nothing, or maps a minute strictly above
`prev_time`.  (Specification-side checker for the amended C6.) -/
def emitOk (st st' : MapState) : Bool :=
  match st'.row_map.drop st.row_map.length with
  | [] => true
  | (_, v) :: _ => decide (prevTime st < v)

/-- A row is legal at `st` when its emission (if any) exceeds the previous
mapped minute. -/
def rowStepOk (i : Int) (st : MapState) (row : Row) : Bool := emitOk st (rowStep i st row)

/-- All rows legal along the run of the mapper. -/
def legalRows (i : Int) : MapState → List (Option Row) → Bool
  | _, [] => true
  | st, none :: rest => legalRows i st rest
  | st, some row :: rest => rowStepOk i st row && legalRows i (rowStep i st row) rest

theorem lookup_append_nat (l1 l2 : List (Nat × Int)) (k : Nat) :
    (l1 ++ l2).lookup k = ((l1.lookup k).or (l2.lookup k)) := by
  induction l1 with
  | nil => simp [List.lookup]
  | cons p rest ih =>
      obtain ⟨a, b⟩ := p
      by_cases h : k = a
      · simp [List.lookup, h]
      · have hbeq : (k == a) = false := by simpa using h
        simp only [List.cons_append, List.lookup, hbeq]
        exact ih

theorem lookup_eq_none_of_keys (l : List (Nat × Int)) (k : Nat)
    (h : k ∉ l.map Prod.fst) : l.lookup k = none := by
  induction l with
  | nil => rfl
  | cons p rest ih =>
      obtain ⟨a, b⟩ := p
      simp only [List.map_cons, List.mem_cons, not_or] at h
      have hbeq : (k == a) = false := by simpa using h.1
      simp only [List.lookup, hbeq]
      exact ih h.2

theorem lookup_isSome_of_keys (l : List (Nat × Int)) (k : Nat)
    (h : k ∈ l.map Prod.fst) : (l.lookup k).isSome = true := by
  induction l with
  | nil => simp at h
  | cons p rest ih =>
      obtain ⟨a, b⟩ := p
      by_cases hk : k = a
      · simp [List.lookup, hk]
      · simp only [List.map_cons, List.mem_cons] at h
        rcases h with h | h
        · exact absurd h hk
        · have hbeq : (k == a) = false := by simpa using hk
          simp only [List.lookup, hbeq]
          exact ih h

/-- The run-time invariant of the mapper's state: the dict's keys are
exactly `0, …, row_idx − 1` in order, its values are strictly increasing in
insertion order, and an hour is only known once something was mapped. -/
def RowMapInv (st : MapState) : Prop :=
  st.row_map.map Prod.fst = List.range st.row_idx
  ∧ List.Chain' (· < ·) (st.row_map.map Prod.snd)
  ∧ (st.current_hour.isSome = true → st.row_map ≠ [])

theorem prevTime_eq_last (st : MapState)
    (ha : st.row_map.map Prod.fst = List.range st.row_idx) :
    prevTime st = ((st.row_map.map Prod.snd).getLast?).getD (-1) := by
  rcases List.eq_nil_or_concat st.row_map with h | ⟨l', p, h⟩
  · simp [prevTime, h]
  · obtain ⟨a, b⟩ := p
    rw [List.concat_eq_append] at h
    have hidx : st.row_idx = l'.length + 1 := by
      have := congrArg List.length ha
      simp [h] at this
      omega
    have hkeys : l'.map Prod.fst ++ [a] = List.range l'.length ++ [l'.length] := by
      have h2 : l'.map Prod.fst ++ [a] = List.range st.row_idx := by
        rw [← ha, h]
        simp
      rw [h2, hidx, List.range_succ]
    have hlast : a = l'.length := by
      have := congrArg List.getLast? hkeys
      simpa using this
    have hinit : l'.map Prod.fst = List.range l'.length := by
      have := congrArg List.dropLast hkeys
      simpa using this
    rw [prevTime, h, hidx]
    simp only [Nat.add_sub_cancel]
    rw [lookup_append_nat]
    rw [lookup_eq_none_of_keys l' l'.length (by rw [hinit]; simp)]
    rw [← hlast]
    simp [List.lookup, List.getLast?_append]

theorem RowMapInv_append (st : MapState) (v : Int) (h : Option Int)
    (hInv : RowMapInv st) (hv : prevTime st < v) :
    RowMapInv { row_map := st.row_map ++ [(st.row_idx, v)], current_hour := h,
                row_idx := st.row_idx + 1 } := by
  obtain ⟨ha, hc, _⟩ := hInv
  refine ⟨by simp [ha, List.range_succ], ?_, by simp⟩
  simp only [List.map_append]
  rw [List.chain'_append]
  refine ⟨hc, List.chain'_singleton _, ?_⟩
  intro x hx y hy
  rw [prevTime_eq_last st ha] at hv
  rw [Option.mem_def] at hx
  rw [hx] at hv
  simp only [List.map_cons, List.map_nil, List.head?_cons, Option.mem_def,
    Option.some.injEq] at hy
  subst hy
  simpa using hv

theorem emitOk_append (st : MapState) (v : Int) (h : Option Int) (k : Nat)
    (he : emitOk st { row_map := st.row_map ++ [(k, v)], current_hour := h,
                      row_idx := st.row_idx + 1 } = true) :
    prevTime st < v := by
  unfold emitOk at he
  rw [List.drop_left] at he
  simpa using he

theorem linksRowStep_cases (i : Int) (st : MapState) (row : Row) (hInv : RowMapInv st) :
    linksRowStep i st row = st
    ∨ ∃ v h, linksRowStep i st row
        = { row_map := st.row_map ++ [(st.row_idx, v)], current_hour := h,
            row_idx := st.row_idx + 1 } := by
  unfold linksRowStep
  by_cases h1 : row.hasLinks ∧ st.current_hour.isSome
  · rw [if_pos h1]
    have hsome : (st.row_map.lookup (st.row_idx - 1)).isSome = true := by
      obtain ⟨ha, _, hne⟩ := hInv
      have hne' : st.row_map ≠ [] := hne (by simpa using h1.2)
      have hlen : st.row_map.length = st.row_idx := by
        have := congrArg List.length ha
        simpa using this
      have hpos : 0 < st.row_idx := by
        rcases Nat.eq_zero_or_pos st.row_idx with h0 | h0
        · rw [h0] at hlen
          exact absurd (List.length_eq_zero.mp hlen) hne'
        · exact h0
      apply lookup_isSome_of_keys
      rw [ha]
      exact List.mem_range.mpr (by omega)
    rw [if_pos hsome]
    exact Or.inr ⟨prevTime st + i, st.current_hour, rfl⟩
  · rw [if_neg h1]
    exact Or.inl rfl

theorem rowStep_cases (i : Int) (st : MapState) (row : Row) (hInv : RowMapInv st) :
    rowStep i st row = st
    ∨ ∃ v h, rowStep i st row
        = { row_map := st.row_map ++ [(st.row_idx, v)], current_hour := h,
            row_idx := st.row_idx + 1 } := by
  unfold rowStep
  split
  · exact Or.inr ⟨_, _, rfl⟩
  · split
    · split
      · dsimp only
        split
        · exact Or.inr ⟨_, _, rfl⟩
        · exact linksRowStep_cases i st row hInv
      · dsimp only
        split
        · exact Or.inr ⟨_, _, rfl⟩
        · split
          · exact Or.inr ⟨_, _, rfl⟩
          · split
            · exact Or.inr ⟨_, _, rfl⟩
            · exact linksRowStep_cases i st row hInv
    · exact linksRowStep_cases i st row hInv

theorem rowStep_preserves (i : Int) (st : MapState) (row : Row)
    (hInv : RowMapInv st) (hok : rowStepOk i st row = true) :
    RowMapInv (rowStep i st row) := by
  rcases rowStep_cases i st row hInv with heq | ⟨v, h, heq⟩
  · rw [heq]
    exact hInv
  · unfold rowStepOk at hok
    rw [heq] at hok ⊢
    exact RowMapInv_append st v h hInv (emitOk_append st v h st.row_idx hok)

theorem runRows_inv (i : Int) (rows : List (Option Row)) :
    ∀ st, RowMapInv st → legalRows i st rows = true →
      RowMapInv (rows.foldl
        (fun st orow =>
          match orow with
          | none => st
          | some row => rowStep i st row) st) := by
  induction rows with
  | nil => intro st hInv _; exact hInv
  | cons orow rest ih =>
      intro st hInv hlegal
      cases orow with
      | none => exact ih st hInv (by simpa [legalRows] using hlegal)
      | some row =>
          simp only [legalRows, Bool.and_eq_true] at hlegal
          simp only [List.foldl_cons]
          exact ih _ (rowStep_preserves i st row hInv hlegal.1) hlegal.2

theorem strictlyIncreasingMap_of_keys (l : List (Nat × Int)) :
    ∀ s : Nat, l.map Prod.fst = List.range' s l.length →
      List.Pairwise (· < ·) (l.map Prod.snd) → StrictlyIncreasingMap l := by
  induction l with
  | nil => intro s _ _ p hp; simp at hp
  | cons pb rest ih =>
      obtain ⟨a, b⟩ := pb
      intro s ha hp
      simp only [List.map_cons, List.length_cons, List.range'_succ] at ha
      have ha1 : a = s := by
        have := congrArg List.head? ha
        simpa using this
      have ha2 : rest.map Prod.fst = List.range' (s + 1) rest.length := by
        have := congrArg List.tail ha
        simpa using this
      rw [List.map_cons, List.pairwise_cons] at hp
      intro p hmp q hmq hlt
      rcases List.mem_cons.mp hmp with rfl | hmp <;>
        rcases List.mem_cons.mp hmq with rfl | hmq
      · exact absurd hlt (lt_irrefl _)
      · exact hp.1 q.2 (List.mem_map_of_mem Prod.snd hmq)
      · have hqk : s + 1 ≤ p.1 := by
          have : p.1 ∈ List.range' (s + 1) rest.length := by
            rw [← ha2]
            exact List.mem_map_of_mem Prod.fst hmp
          exact (List.mem_range'_1.mp this).1
        rw [ha1] at hlt
        omega
      · exact ih (s + 1) ha2 hp.2 p hmp q hmq hlt

/-- C6 (amended).  The mapper's guarded branches (bare-minute and hour
rollover) compare against the previous minute, but absolute `H:MM` rows,
first bare-hour rows, fresh-hour rows and link-row interpolation emit
unguarded; the map is strictly increasing with row index exactly on runs
where every emission in fact exceeds the previously mapped minute
(`legalRows`) — which the counterexample shows is not every input. -/
theorem build_row_time_mapping_strictly_increasing (i : Int) (rows : List (Option Row))
    (hlegal : legalRows i rowMapInitState rows = true) :
    StrictlyIncreasingMap (build_row_time_mapping i rows) := by
  have hInv : RowMapInv (rows.foldl
      (fun st orow =>
        match orow with
        | none => st
        | some row => rowStep i st row) rowMapInitState) := by
    refine runRows_inv i rows rowMapInitState ⟨rfl, List.chain'_nil, ?_⟩ hlegal
    intro h
    simp [rowMapInitState] at h
  obtain ⟨ha, hc, _⟩ := hInv
  apply strictlyIncreasingMap_of_keys _ 0 ?_ (List.chain'_iff_pairwise.mp hc)
  rw [ha]
  have hlen : (rows.foldl
      (fun st orow =>
        match orow with
        | none => st
        | some row => rowStep i st row) rowMapInitState).row_map.length
      = (rows.foldl
      (fun st orow =>
        match orow with
        | none => st
        | some row => rowStep i st row) rowMapInitState).row_idx := by
    have := congrArg List.length ha
    simpa using this
  rw [List.range_eq_range', hlen]

/-- Witness for C6 (amended): an absolute row, a bare-minute row, an
interpolated link row and a fresh-hour row, all legal. -/
theorem build_row_time_mapping_strictly_increasing_witness :
    legalRows 5 rowMapInitState
        [some { text := "9:00", hasLinks := false }, some { text := "15", hasLinks := true },
         some { text := "", hasLinks := true }, some { text := "10", hasLinks := false }]
      = true
    ∧ StrictlyIncreasingMap (build_row_time_mapping 5
        [some { text := "9:00", hasLinks := false }, some { text := "15", hasLinks := true },
         some { text := "", hasLinks := true }, some { text := "10", hasLinks := false }]) :=
  ⟨by decide,
   build_row_time_mapping_strictly_increasing 5
     [some { text := "9:00", hasLinks := false }, some { text := "15", hasLinks := true },
      some { text := "", hasLinks := true }, some { text := "10", hasLinks := false }]
     (by decide)⟩
